import Mathlib

/-!
Verification development for the pk500 card-price index script
(src/pk500.py).  Python floats are modelled as rationals, Python
strings as Lean strings (operated on through their character lists),
and the HTML documents consumed by the script as a structural record
of the pieces the script actually queries (first h1 text, title text,
and the list of tables with their th/td cells).
-/

/-- Word characters for the regex word boundary used by is_grade_10
(ASCII subset of the regex class). -/
def isWordChar (c : Char) : Bool := c.isAlphanum || c = '_'

/-- Characters stripped by Python str.strip (whitespace). -/
def isWS (c : Char) : Bool := c.isWhitespace

/-- Model of Python str.strip on a character list. -/
def trimChars (l : List Char) : List Char :=
  ((l.dropWhile isWS).reverse.dropWhile isWS).reverse

/-- Model of Python str.strip. -/
def strTrim (s : String) : String := ⟨trimChars s.data⟩

/-- Model of Python str.lower (ASCII). -/
def lowerStr (s : String) : String := ⟨s.data.map Char.toLower⟩

/-- Does pat occur as a contiguous sublist of hay (Python `in` test). -/
def listHasSub (pat : List Char) : List Char → Bool
  | [] => pat.isEmpty
  | c :: rest => List.isPrefixOf pat (c :: rest) || listHasSub pat rest

/-- Model of Python substring containment test (pat in hay). -/
def strContainsSub (hay pat : String) : Bool := listHasSub pat.data hay.data

/-- Numeric value of a digit list (most significant first). -/
def digitsToNat (ds : List Char) : Nat :=
  ds.foldl (fun a c => a * 10 + (c.toNat - 48)) 0

/-- The outcome of scanning a decimal literal: failure, or its sign
and digit runs before and after the decimal point. -/
inductive FloatForm where
  | fail
  | val (neg : Bool) (intDigits fracDigits : List Char)
deriving DecidableEq

/-- The string-level part of Python float() on the decimal forms
that occur in price cells: optional sign, digits, optional
fractional part; surrounding whitespace is stripped as float()
does.  Any other form is a parse failure (ValueError). -/
def parseFloatForm (cs0 : List Char) : FloatForm :=
  let cs := trimChars cs0
  let neg : Bool := match cs with
    | '-' :: _ => true
    | _ => false
  let cs1 : List Char := match cs with
    | '-' :: r => r
    | '+' :: r => r
    | _ => cs
  let intPart := cs1.takeWhile Char.isDigit
  let rest := cs1.dropWhile Char.isDigit
  match rest with
  | [] => if intPart.isEmpty then .fail else .val neg intPart []
  | '.' :: fr =>
    let fracPart := fr.takeWhile Char.isDigit
    let rest2 := fr.dropWhile Char.isDigit
    if rest2.isEmpty && !(intPart.isEmpty && fracPart.isEmpty) then
      .val neg intPart fracPart
    else .fail
  | _ => .fail

/-- The rational value a parsed decimal form denotes. -/
def formToQ : FloatForm → Option ℚ
  | .fail => none
  | .val neg i f =>
      some ((if neg then (-1 : ℚ) else 1) *
        ((digitsToNat i : ℚ) + (digitsToNat f : ℚ) / (10 : ℚ) ^ f.length))

/-- Model of Python float() on the decimal forms that occur in price
cells. -/
def parseFloatQ (cs : List Char) : Option ℚ := formToQ (parseFloatForm cs)

/-- Model of money_to_float from src/pk500.py: strip, map the blank
sentinels to 0, drop dollar signs and thousands separators, parse as
a float, and fall back to 0 on a parse failure. -/
def money_to_float (s : String) : ℚ :=
  let t := strTrim s
  if t = "" || t = "-" || t = "—" || t = "N/A" then 0
  else
    match parseFloatQ (t.data.filter (fun c => !(c = '$' || c = ','))) with
    | some v => v
    | none => 0

/-- Model of int_from from src/pk500.py: strip, drop thousands
separators, parse as an integer, and fall back to 0 on failure. -/
def int_from (s : String) : Int :=
  let u := trimChars ((strTrim s).data.filter (fun c => !(c = ',')))
  match u with
  | '-' :: ds =>
      if !ds.isEmpty && ds.all Char.isDigit then -(digitsToNat ds : Int) else 0
  | '+' :: ds =>
      if !ds.isEmpty && ds.all Char.isDigit then (digitsToNat ds : Int) else 0
  | ds =>
      if !ds.isEmpty && ds.all Char.isDigit then (digitsToNat ds : Int) else 0

/-- Does the regex fragment occur right here: the list starts with
"10" with a word boundary on each side, given whether the previous
character was a word character. -/
def word10Here (prevIsWord : Bool) (l : List Char) : Bool :=
  match l with
  | '1' :: '0' :: rest =>
      !prevIsWord && (match rest with
        | [] => true
        | c :: _ => !isWordChar c)
  | _ => false

/-- Scan for a whole-word occurrence of "10" anywhere in the list. -/
def search10 (prevIsWord : Bool) : List Char → Bool
  | [] => false
  | c :: rest => word10Here prevIsWord (c :: rest) || search10 (isWordChar c) rest

/-- Model of is_grade_10 from src/pk500.py: strip, reject empty, then
search for the whole-word token 10 (regex word-boundary search). -/
def is_grade_10 (text : String) : Bool :=
  let t := trimChars text.data
  if t.isEmpty then false else search10 false t

/-- One HTML table cell as the extractor sees it: a header cell (th)
or a data cell (td), each reduced to its text content, already in
the get_text form the script requests. -/
inductive Cell where
  | th (text : String)
  | td (text : String)
deriving DecidableEq

/-- An HTML table: its tr rows, each a list of cells. -/
structure Table where
  rows : List (List Cell)
deriving DecidableEq

/-- The pieces of a parsed card page that parse_card_value queries:
the text of the first h1 (none when no h1 element exists), the text
of the title element (none when absent), and all tables. -/
structure Doc where
  h1 : Option String
  title : Option String
  tables : List Table
deriving DecidableEq

/-- A valued card record (dataclass CardValue in src/pk500.py). -/
structure CardValue where
  name : String
  url : String
  value_usd : ℚ
deriving DecidableEq

/-- Text of a cell regardless of kind. -/
def cellText : Cell → String
  | .th s => s
  | .td s => s

/-- Is the cell a header (th) cell. -/
def cellIsTh : Cell → Bool
  | .th _ => true
  | .td _ => false

/-- The texts of all th cells of a table in document order
(target.find_all of th in src/pk500.py). -/
def tableHeaders (t : Table) : List String :=
  (t.rows.map (fun r => (r.filter cellIsTh).map cellText)).flatten

/-- Join character lists with a single space between them (the
space-separated join applied to the th texts). -/
def joinWithSpace : List (List Char) → List Char
  | [] => []
  | [l] => l
  | l :: ls => l ++ ' ' :: joinWithSpace ls

/-- The concatenated header text of a table, joined with single
spaces (the th_text string built in parse_card_value). -/
def tableHeaderText (t : Table) : String :=
  ⟨joinWithSpace ((tableHeaders t).map String.data)⟩

/-- Table selection test from parse_card_value: the concatenated th
text must contain both markers, case sensitively. -/
def tableMatchesHeaders (t : Table) : Bool :=
  strContainsSub (tableHeaderText t) "Average Price" &&
  strContainsSub (tableHeaderText t) "Population"

/-- Model of the col_idx helper in parse_card_value: index of the
first header whose lowercased text contains the lowercased key,
or -1 when none does. -/
def col_idxFrom (key : String) : Nat → List String → Int
  | _, [] => -1
  | i, h :: t =>
      if strContainsSub (lowerStr h) (lowerStr key) then (i : Int)
      else col_idxFrom key (i + 1) t

/-- The col_idx helper from src/pk500.py. -/
def col_idx (headers : List String) (key : String) : Int :=
  col_idxFrom key 0 headers

/-- Does the title-suffix regex match starting exactly here (pattern
of whitespace, a bar, whitespace, then PSA, then a dot-star to the
line end, where the dot does not cross an interior newline). -/
def psaTailOk (u : List Char) : Bool :=
  u.all (fun c => !(c = '\x0a')) ||
  (match u.getLast? with
   | some c => (c = '\x0a') && u.dropLast.all (fun c => !(c = '\x0a'))
   | none => false)

/-- Does the suffix pattern match at the start of this list. -/
def psaMatchHere (l : List Char) : Bool :=
  match l.dropWhile isWS with
  | '|' :: r =>
      match r.dropWhile isWS with
      | 'P' :: 'S' :: 'A' :: u => psaTailOk u
      | _ => false
  | _ => false

/-- Index of the leftmost match of the title-suffix regex, if any. -/
def psaMatchIndex : List Char → Option Nat
  | [] => none
  | c :: rest =>
      if psaMatchHere (c :: rest) then some 0
      else (psaMatchIndex rest).map (fun i => i + 1)

/-- Model of the re.sub call plus trailing strip applied to the
fallback name in parse_card_value: delete everything from the
leftmost suffix match onward, then strip. -/
def stripPsaSuffix (s : String) : String :=
  match psaMatchIndex s.data with
  | some i => ⟨trimChars (s.data.take i)⟩
  | none => ⟨trimChars s.data⟩

/-- The name taken when the h1 path is not usable: the title text if
a title exists, else the card url, then suffix-stripped and
trimmed. -/
def fallbackName (doc : Doc) (card_url : String) : String :=
  stripPsaSuffix (match doc.title with
    | some t => t
    | none => card_url)

/-- Name resolution from the top of parse_card_value: prefer a
non-empty h1 text, otherwise the suffix-stripped title or url. -/
def resolveName (doc : Doc) (card_url : String) : String :=
  match doc.h1 with
  | some h => if h ≠ "" then h else fallbackName doc card_url
  | none => fallbackName doc card_url

/-- Contribution of one body row to the accumulated value in
parse_card_value: zero when the row is too short, when its grade
cell is not a grade-10 row, or when either parsed number is not
positive; otherwise average price times population. -/
def rowContribution (ia ip gc : Nat) (r : List Cell) : ℚ :=
  let cols := r.map cellText
  if cols.length ≤ max ia ip then 0
  else
    let grade_text := if gc < cols.length then cols.getD gc "" else ""
    if !(is_grade_10 grade_text) then 0
    else
      let avg := money_to_float (cols.getD ia "")
      let pop := int_from (cols.getD ip "")
      if 0 < avg ∧ 0 < pop then avg * (pop : ℚ) else 0

/-- The value accumulated over all body rows (every tr after the
first) of the selected table. -/
def tableTotal (ia ip gc : Nat) (rows : List (List Cell)) : ℚ :=
  ((rows.drop 1).map (rowContribution ia ip gc)).sum

/-- The grade column used by parse_card_value: the resolved Grade
column, or column 0 when unresolved. -/
def gradeColOf (headers : List String) : Nat :=
  let ig := col_idx headers "Grade"
  if 0 ≤ ig then ig.toNat else 0

/-- Model of parse_card_value from src/pk500.py (the fetch having
already produced doc): resolve the name, select the first table
whose header text carries both markers, resolve columns, accumulate
grade-10 row values, and report none on any miss. -/
def parse_card_value (doc : Doc) (card_url : String) : Option CardValue :=
  let name := resolveName doc card_url
  match doc.tables.find? tableMatchesHeaders with
  | none => none
  | some target =>
    let headers := tableHeaders target
    let iAvg := col_idx headers "Average Price"
    let iPop := col_idx headers "Population"
    if iAvg < 0 ∨ iPop < 0 then none
    else
      let value := tableTotal iAvg.toNat iPop.toNat (gradeColOf headers) target.rows
      if value ≤ 0 then none
      else some ⟨name, card_url, value⟩

/-- The outcome of one attempt of the fetch loop, after the optional
cloudscraper re-issue on 403: either a response with its final
status and body, or one of the caught transport exceptions. -/
inductive Outcome where
  | resp (status : Nat) (body : Doc)
  | connError
  | timeoutErr
deriving DecidableEq

/-- The terminal error a fetch run can raise: an HTTPError carrying
a status, a connection error, a timeout, or exhaustion of the
outcome stream (unreachable when the stream covers every attempt). -/
inductive FetchErr where
  | http (status : Nat)
  | conn
  | timeout
  | noAttempts
deriving DecidableEq

/-- The retryable status set of the fetch loop in src/pk500.py. -/
def retryableStatus (s : Nat) : Bool :=
  s = 403 || s = 429 || s = 500 || s = 502 || s = 503 || s = 504

/-- Statuses for which raise_for_status raises an HTTPError. -/
def raisesForStatus (s : Nat) : Bool := 400 ≤ s && s < 600

/-- Model of the attempt loop of fetch from src/pk500.py: walk the
stream of per-attempt outcomes with the number of attempts still
allowed.  A retryable status or transport error consumes an attempt
and moves on, except on the last attempt where it is raised as the
terminal error; a status that raise_for_status rejects and that is
not retryable is raised immediately; any other response is returned
as the parsed document. -/
def fetchRun : Nat → List Outcome → Except FetchErr Doc
  | _, [] => .error .noAttempts
  | n, o :: rest =>
    match o with
    | .resp s body =>
      if retryableStatus s then
        if n ≤ 1 then .error (.http s) else fetchRun (n - 1) rest
      else if raisesForStatus s then .error (.http s)
      else .ok body
    | .connError => if n ≤ 1 then .error .conn else fetchRun (n - 1) rest
    | .timeoutErr => if n ≤ 1 then .error .timeout else fetchRun (n - 1) rest

/-- The fetch entry point with its default retry budget of 7. -/
def fetch (outcomes : List Outcome) (retries : Nat := 7) : Except FetchErr Doc :=
  fetchRun retries outcomes

/-- The exponential backoff cap of _sleep_with_backoff. -/
def backoffCap (base_delay max_delay : ℚ) (attempt : Nat) : ℚ :=
  min max_delay (base_delay * 2 ^ (attempt - 1))

/-- Model of _sleep_with_backoff from src/pk500.py: with a valid
numeric Retry-After value the sleep is that value clamped to
max_delay; otherwise the sleep is a uniform draw from the closed
interval from zero to the cap, modelled as u times the cap for a
draw parameter u between zero and one. -/
def sleepDuration (base_delay max_delay : ℚ) (attempt : Nat)
    (retryAfter : Option ℚ) (u : ℚ) : ℚ :=
  match retryAfter with
  | some ra => min ra max_delay
  | none => u * backoffCap base_delay max_delay attempt

/-- The summary record produced by the index computation (the dict
returned by compute_index). -/
structure IndexResult where
  n_total : Nat
  k_used : Nat
  sum_value : ℚ
  divisor_10000 : Option ℚ
  index_level : Option ℚ
deriving DecidableEq

/-- Model of compute_index from src/pk500.py, over a list already
sorted by value descending. -/
def compute_index (values_desc : List CardValue) : IndexResult :=
  let n := values_desc.length
  if n = 0 then ⟨0, 0, 0, none, none⟩
  else
    let k := if n < 500 then max 1 (n / 2) else 500
    let basket := values_desc.take k
    let s := (basket.map CardValue.value_usd).sum
    let divisor : Option ℚ := if 0 < s then some (s / 10000) else none
    let level : Option ℚ := match divisor with
      | some d => if d = 0 then none else some (s / d)
      | none => none
    ⟨n, k, s, divisor, level⟩

/-- Model of the inline index computation in main (src/pk500.py,
the pseudo-index block), written independently of compute_index:
the fields keep their initialisation when n is zero and are
recomputed in the else branch exactly as main does. -/
def mainIndex (all_values : List CardValue) : IndexResult :=
  let n := all_values.length
  let basket_size := 0
  let sum_value : ℚ := 0
  let divisor_10000 : Option ℚ := none
  let index_level : Option ℚ := none
  if n = 0 then ⟨n, basket_size, sum_value, divisor_10000, index_level⟩
  else
    let basket_size := if n < 500 then max 1 (n / 2) else 500
    let basket := all_values.take basket_size
    let sum_value := (basket.map CardValue.value_usd).sum
    let divisor_10000 : Option ℚ :=
      if 0 < sum_value then some (sum_value / 10000) else none
    let index_level : Option ℚ := match divisor_10000 with
      | some d => if d = 0 then none else some (sum_value / d)
      | none => none
    ⟨n, basket_size, sum_value, divisor_10000, index_level⟩

/-- Stable insertion of a newly arrived record into a list sorted by
value descending: the new record goes after every record of greater
or equal value, which is where the stable Python sort with a reverse
key leaves an element arriving at the end of the list. -/
def insertDesc : List CardValue → CardValue → List CardValue
  | [], x => [x]
  | y :: ys, x =>
      if x.value_usd ≤ y.value_usd then y :: insertDesc ys x
      else x :: y :: ys

/-- Model of list.sort with the value key and reverse set, as used
for both top10 and all_values in main: the stable descending sort,
realised as left-to-right stable insertion. -/
def sortDesc (l : List CardValue) : List CardValue :=
  l.foldl insertDesc []

/-- One streaming step of the top-10 tracker in main: append the new
record, re-sort descending, truncate to 10. -/
def top10Step (acc : List CardValue) (cv : CardValue) : List CardValue :=
  (sortDesc (acc ++ [cv])).take 10

/-- The streaming top-10 tracker run over a whole record stream. -/
def top10Stream (xs : List CardValue) : List CardValue :=
  xs.foldl top10Step []

/-- Model of dict.fromkeys based deduplication in main, with the
seen set made explicit: keep an element when it has not been seen
before, in stream order. -/
def dedupFrom (seen : List String) : List String → List String
  | [] => []
  | x :: xs =>
      if x ∈ seen then dedupFrom seen xs
      else x :: dedupFrom (x :: seen) xs

/-- Global first-seen-order deduplication of the card url list
(list of dict.fromkeys in main). -/
def dedupFirstSeen (l : List String) : List String := dedupFrom [] l

/-- Index of the first occurrence of u in l (length of l when u is
absent), used to state first-seen order. -/
def firstIdx (u : String) : List String → Nat
  | [] => 0
  | x :: xs => if x = u then 0 else firstIdx u xs + 1

/-- A fixed probe record used to instantiate universally quantified
theorems at concrete inputs. -/
def probeCard : CardValue := ⟨"c", "u", 1⟩

/-- The two index computations in the script agree on every input;
shared by the index theorems below. -/
theorem indexAgree (vs : List CardValue) : compute_index vs = mainIndex vs := by
  by_cases h : vs.length = 0 <;> simp [compute_index, mainIndex, h]

/-- Claim C10: the standalone compute_index function returns exactly
the same record as the inline index computation in main, on every
descending-sorted input, including the empty case. -/
theorem c10_compute_index_matches_main (values_desc : List CardValue) :
    compute_index values_desc = mainIndex values_desc :=
  indexAgree values_desc

/-- Claim C1: the basket size is 0 (with divisor and level undefined)
when no records exist, max 1 (n / 2) when 0 < n < 500, and 500 when
n is at least 500. -/
theorem c1_basket_size_rule (vs : List CardValue) :
    (vs.length = 0 → (compute_index vs).k_used = 0 ∧
      (compute_index vs).divisor_10000 = none ∧
      (compute_index vs).index_level = none) ∧
    (0 < vs.length → vs.length < 500 →
      (compute_index vs).k_used = max 1 (vs.length / 2)) ∧
    (500 ≤ vs.length → (compute_index vs).k_used = 500) := by
  refine ⟨fun h => ?_, fun h1 h2 => ?_, fun h => ?_⟩
  · simp [compute_index, h]
  · simp [compute_index, Nat.pos_iff_ne_zero.mp h1, h2]
  · have h0 : vs.length ≠ 0 := by omega
    have h5 : ¬ vs.length < 500 := by omega
    simp [compute_index, h0, h5]

/-- Claim C1 witness: the basket size rule evaluated at concrete
record counts 0, 3, 100, 499, 500 and 10000. -/
theorem c1_basket_size_rule_witness :
    (compute_index ([] : List CardValue)).k_used = 0 ∧
    (compute_index (List.replicate 3 probeCard)).k_used = 1 ∧
    (compute_index (List.replicate 100 probeCard)).k_used = 50 ∧
    (compute_index (List.replicate 499 probeCard)).k_used = 249 ∧
    (compute_index (List.replicate 500 probeCard)).k_used = 500 ∧
    (compute_index (List.replicate 10000 probeCard)).k_used = 500 := by
  refine ⟨((c1_basket_size_rule []).1 rfl).1, ?_, ?_, ?_, ?_, ?_⟩
  · have h := (c1_basket_size_rule (List.replicate 3 probeCard)).2.1
    simp only [List.length_replicate] at h
    rw [h (by omega) (by omega)]
    decide
  · have h := (c1_basket_size_rule (List.replicate 100 probeCard)).2.1
    simp only [List.length_replicate] at h
    rw [h (by omega) (by omega)]
    decide
  · have h := (c1_basket_size_rule (List.replicate 499 probeCard)).2.1
    simp only [List.length_replicate] at h
    rw [h (by omega) (by omega)]
    decide
  · have h := (c1_basket_size_rule (List.replicate 500 probeCard)).2.2
    simp only [List.length_replicate] at h
    exact h (by omega)
  · have h := (c1_basket_size_rule (List.replicate 10000 probeCard)).2.2
    simp only [List.length_replicate] at h
    exact h (by omega)

/-- Claim C2: the divisor and index level are undefined when there
are no records or the basket sum is not positive, and whenever the
divisor is defined it is positive, equals the basket sum divided by
10000, and the index level is the basket sum divided by the divisor,
which is exactly 10000. -/
theorem c2_index_never_divides_by_zero (vs : List CardValue) :
    (vs.length = 0 → (compute_index vs).divisor_10000 = none ∧
      (compute_index vs).index_level = none) ∧
    ((compute_index vs).sum_value ≤ 0 → (compute_index vs).divisor_10000 = none ∧
      (compute_index vs).index_level = none) ∧
    (∀ d, (compute_index vs).divisor_10000 = some d →
      0 < d ∧ d = (compute_index vs).sum_value / 10000 ∧
      (compute_index vs).index_level = some ((compute_index vs).sum_value / d) ∧
      (compute_index vs).index_level = some 10000) := by
  by_cases h : vs.length = 0
  · refine ⟨fun _ => ?_, fun _ => ?_, fun d hd => ?_⟩ <;>
      simp_all [compute_index, h]
  · simp only [compute_index, h, if_false]
    set s : ℚ :=
      ((vs.take (if vs.length < 500 then max 1 (vs.length / 2) else 500)).map
        CardValue.value_usd).sum with hs
    refine ⟨fun h0 => h0.elim, fun hle => ?_, fun d hd => ?_⟩
    · have hnp : ¬ (0 < s) := by simpa using hle
      simp [hnp]
    · by_cases hpos : 0 < s
      · simp only [hpos, if_true] at hd
        have hd2 : d = s / 10000 := (Option.some_inj.mp hd).symm
        subst hd2
        have hsne : s ≠ 0 := ne_of_gt hpos
        have hdpos : 0 < s / 10000 := by positivity
        have hdne : s / 10000 ≠ 0 := ne_of_gt hdpos
        have hlvl : s / (s / 10000) = 10000 := by
          field_simp
        refine ⟨hdpos, rfl, ?_, ?_⟩
        · simp [hpos, hdne]
        · simp [hpos, hdne, hlvl]
      · simp [hpos] at hd

/-- Claim C2 witness: the divisor and level at a singleton record of
value 5 and at the empty record list. -/
theorem c2_index_never_divides_by_zero_witness :
    ((compute_index ([] : List CardValue)).divisor_10000 = none ∧
      (compute_index ([] : List CardValue)).index_level = none) ∧
    (0 < (1 / 10000 : ℚ) ∧
      (1 / 10000 : ℚ) = (compute_index [probeCard]).sum_value / 10000 ∧
      (compute_index [probeCard]).index_level =
        some ((compute_index [probeCard]).sum_value / (1 / 10000 : ℚ)) ∧
      (compute_index [probeCard]).index_level = some 10000) := by
  refine ⟨(c2_index_never_divides_by_zero []).1 rfl, ?_⟩
  exact (c2_index_never_divides_by_zero [probeCard]).2.2 (1 / 10000)
    (by norm_num [compute_index, probeCard])

/-- Claim C4: without a valid Retry-After value the jittered sleep
lies between 0 and the capped exponential bound, and with a valid
numeric Retry-After value v the sleep is exactly min v max_delay. -/
theorem c4_backoff_sleep_bounds (base_delay max_delay : ℚ) (attempt : Nat)
    (u v : ℚ) (hb : 0 ≤ base_delay) (hm : 0 ≤ max_delay)
    (hu0 : 0 ≤ u) (hu1 : u ≤ 1) :
    (0 ≤ sleepDuration base_delay max_delay attempt none u ∧
      sleepDuration base_delay max_delay attempt none u ≤
        min max_delay (base_delay * 2 ^ (attempt - 1))) ∧
    sleepDuration base_delay max_delay attempt (some v) u = min v max_delay ∧
    sleepDuration 1 60 attempt (some 120) u = 60 := by
  have hcap : 0 ≤ backoffCap base_delay max_delay attempt :=
    le_min hm (mul_nonneg hb (pow_nonneg (by norm_num) _))
  refine ⟨⟨mul_nonneg hu0 hcap, ?_⟩, rfl, ?_⟩
  · exact mul_le_of_le_one_left hcap hu1
  · show min (120 : ℚ) 60 = 60
    norm_num

/-- Claim C4 witness: the bounds for attempt 3 with base delay 1,
max delay 60 and draw one half, and the Retry-After 120 case. -/
theorem c4_backoff_sleep_bounds_witness :
    (0 : ℚ) ≤ 1 ∧ (0 : ℚ) ≤ 60 ∧ (0 : ℚ) ≤ 1 / 2 ∧ (1 / 2 : ℚ) ≤ 1 ∧
    ((0 ≤ sleepDuration 1 60 3 none (1 / 2) ∧
       sleepDuration 1 60 3 none (1 / 2) ≤ min 60 (1 * 2 ^ (3 - 1))) ∧
     sleepDuration 1 60 3 (some 120) (1 / 2) = min 120 60 ∧
     sleepDuration 1 60 3 (some 120) (1 / 2) = 60) :=
  ⟨by norm_num, by norm_num, by norm_num, by norm_num,
    c4_backoff_sleep_bounds 1 60 3 (1 / 2) 120
      (by norm_num) (by norm_num) (by norm_num) (by norm_num)⟩

/-- An empty parsed document used for concrete fetch runs. -/
def emptyDoc : Doc := ⟨none, none, []⟩

/-- Claim C3 counterexample: status 304 is not 2xx and is not in the
retryable set, yet fetch returns it as a success instead of raising
it immediately as a terminal failure. -/
theorem c3_fetch_counterexample :
    retryableStatus 304 = false ∧ ¬ (200 ≤ 304 ∧ 304 < 300) ∧
    fetch [Outcome.resp 304 emptyDoc] = .ok emptyDoc :=
  ⟨rfl, by omega, rfl⟩

/-- Claim C3 as amended: statuses 403, 429, 500, 502, 503 and 504
are retryable on a non-final attempt; any other status in 400..599
is raised immediately as a terminal failure regardless of remaining
attempts; a status outside 400..599 that is not retryable (2xx, but
also 1xx or 3xx such as 304) is returned as success; connection and
timeout errors are retryable; and on the final attempt a retryable
outcome is raised as the terminal error carrying the last cause. -/
theorem c3_fetch_outcome_rules :
    (∀ s body rest n, retryableStatus s = true → 2 ≤ n →
        fetchRun n (Outcome.resp s body :: rest) = fetchRun (n - 1) rest) ∧
    (∀ s body rest n, retryableStatus s = false → raisesForStatus s = true →
        fetchRun n (Outcome.resp s body :: rest) = .error (.http s)) ∧
    (∀ s body rest n, retryableStatus s = false → raisesForStatus s = false →
        fetchRun n (Outcome.resp s body :: rest) = .ok body) ∧
    (∀ rest n, 2 ≤ n →
        fetchRun n (Outcome.connError :: rest) = fetchRun (n - 1) rest) ∧
    (∀ rest n, 2 ≤ n →
        fetchRun n (Outcome.timeoutErr :: rest) = fetchRun (n - 1) rest) ∧
    (∀ s body rest, retryableStatus s = true →
        fetchRun 1 (Outcome.resp s body :: rest) = .error (.http s)) ∧
    (∀ rest, fetchRun 1 (Outcome.connError :: rest) = .error .conn) ∧
    (∀ rest, fetchRun 1 (Outcome.timeoutErr :: rest) = .error .timeout) := by
  refine ⟨?_, ?_, ?_, ?_, ?_, ?_, ?_, ?_⟩
  · intro s body rest n hs hn
    have : ¬ n ≤ 1 := by omega
    simp [fetchRun, hs, this]
  · intro s body rest n hs hr
    simp [fetchRun, hs, hr]
  · intro s body rest n hs hr
    simp [fetchRun, hs, hr]
  · intro rest n hn
    have : ¬ n ≤ 1 := by omega
    simp [fetchRun, this]
  · intro rest n hn
    have : ¬ n ≤ 1 := by omega
    simp [fetchRun, this]
  · intro s body rest hs
    simp [fetchRun, hs]
  · intro rest
    simp [fetchRun]
  · intro rest
    simp [fetchRun]

/-- Claim C3 witness: concrete runs exercising the retryable status
path, the immediate terminal path, the transport error paths and
the final-attempt exhaustion path, with the default budget of 7. -/
theorem c3_fetch_outcome_rules_witness :
    fetch [Outcome.resp 429 emptyDoc, Outcome.resp 200 emptyDoc] = .ok emptyDoc ∧
    fetch [Outcome.resp 404 emptyDoc] = .error (.http 404) ∧
    fetchRun 2 [Outcome.connError, Outcome.timeoutErr] = .error .timeout ∧
    fetchRun 1 [Outcome.resp 503 emptyDoc] = .error (.http 503) := by
  have h := c3_fetch_outcome_rules
  refine ⟨?_, ?_, ?_, ?_⟩
  · show fetchRun 7 (Outcome.resp 429 emptyDoc :: [Outcome.resp 200 emptyDoc]) = .ok emptyDoc
    rw [h.1 429 emptyDoc _ 7 rfl (by omega)]
    exact h.2.2.1 200 emptyDoc [] 6 rfl rfl
  · exact h.2.1 404 emptyDoc [] 7 rfl rfl
  · rw [h.2.2.2.1 [Outcome.timeoutErr] 2 (by omega)]
    exact h.2.2.2.2.2.2.2 []
  · exact h.2.2.2.2.2.1 503 emptyDoc [] rfl

/-- Membership in the deduplicated stream: an element survives
exactly when it occurs in the stream and was not already seen. -/
theorem mem_dedupFrom (u : String) :
    ∀ (l seen : List String), u ∈ dedupFrom seen l ↔ u ∈ l ∧ u ∉ seen := by
  intro l
  induction l with
  | nil => intro seen; simp [dedupFrom]
  | cons x xs ih =>
    intro seen
    by_cases hx : x ∈ seen
    · simp only [dedupFrom, hx, if_true, ih, List.mem_cons]
      constructor
      · rintro ⟨h1, h2⟩
        exact ⟨Or.inr h1, h2⟩
      · rintro ⟨h1, h2⟩
        rcases h1 with h1 | h1
        · exact absurd (h1 ▸ hx) h2
        · exact ⟨h1, h2⟩
    · simp only [dedupFrom, hx, if_false, List.mem_cons, ih, List.mem_cons]
      constructor
      · rintro (h | ⟨h1, h2⟩)
        · exact ⟨Or.inl h, h ▸ hx⟩
        · exact ⟨Or.inr h1, fun hc => h2 (Or.inr hc)⟩
      · rintro ⟨h1, h2⟩
        rcases h1 with h1 | h1
        · exact Or.inl h1
        · by_cases hux : u = x
          · exact Or.inl hux
          · exact Or.inr ⟨h1, fun hc => h2 (hc.resolve_left hux)⟩

/-- The deduplicated stream has no duplicates, and every element of
it was unseen when deduplication started. -/
theorem dedupFrom_nodup :
    ∀ (l seen : List String),
      (dedupFrom seen l).Nodup ∧ ∀ u ∈ dedupFrom seen l, u ∉ seen := by
  intro l
  induction l with
  | nil => intro seen; simp [dedupFrom]
  | cons x xs ih =>
    intro seen
    by_cases hx : x ∈ seen
    · simpa [dedupFrom, hx] using ih seen
    · have ihx := ih (x :: seen)
      refine ⟨?_, ?_⟩
      · simp only [dedupFrom, hx, if_false, List.nodup_cons]
        refine ⟨fun hc => ?_, ihx.1⟩
        exact (ihx.2 x hc) (List.mem_cons_self x seen)
      · intro u hu
        simp only [dedupFrom, hx, if_false, List.mem_cons] at hu
        rcases hu with hu | hu
        · exact hu ▸ hx
        · exact fun hc => (ihx.2 u hu) (List.mem_cons_of_mem x hc)

/-- firstIdx of the head of a cons cell. -/
theorem firstIdx_cons_self (x : String) (xs : List String) :
    firstIdx x (x :: xs) = 0 := by
  simp [firstIdx]

/-- firstIdx steps over a non-matching head. -/
theorem firstIdx_cons_ne (x u : String) (xs : List String) (h : x ≠ u) :
    firstIdx u (x :: xs) = firstIdx u xs + 1 := by
  simp [firstIdx, h]

/-- The deduplicated stream is ordered by first occurrence: the
first-seen indices of its elements are strictly increasing. -/
theorem dedupFrom_firstIdx_sorted :
    ∀ (l seen : List String),
      (dedupFrom seen l).Pairwise (fun a b => firstIdx a l < firstIdx b l) := by
  intro l
  induction l with
  | nil => intro seen; simp [dedupFrom]
  | cons x xs ih =>
    intro seen
    by_cases hx : x ∈ seen
    · simp only [dedupFrom, hx, if_true]
      refine (ih seen).imp_of_mem ?_
      intro a b ha hb hab
      have hna : a ≠ x := fun hc => ((dedupFrom_nodup xs seen).2 a ha) (hc ▸ hx)
      have hnb : b ≠ x := fun hc => ((dedupFrom_nodup xs seen).2 b hb) (hc ▸ hx)
      rw [firstIdx_cons_ne x a xs (Ne.symm hna), firstIdx_cons_ne x b xs (Ne.symm hnb)]
      omega
    · simp only [dedupFrom, hx, if_false, List.pairwise_cons]
      constructor
      · intro b hb
        have hnb : b ≠ x := fun hc =>
          ((dedupFrom_nodup xs (x :: seen)).2 b hb) (hc ▸ List.mem_cons_self x seen)
        rw [firstIdx_cons_self, firstIdx_cons_ne x b xs (Ne.symm hnb)]
        omega
      · refine (ih (x :: seen)).imp_of_mem ?_
        intro a b ha hb hab
        have hna : a ≠ x := fun hc =>
          ((dedupFrom_nodup xs (x :: seen)).2 a ha) (hc ▸ List.mem_cons_self x seen)
        have hnb : b ≠ x := fun hc =>
          ((dedupFrom_nodup xs (x :: seen)).2 b hb) (hc ▸ List.mem_cons_self x seen)
        rw [firstIdx_cons_ne x a xs (Ne.symm hna), firstIdx_cons_ne x b xs (Ne.symm hnb)]
        omega

/-- Claim C8: card urls are deduplicated globally with first-seen
order preserved: over the concatenation of two set streams the
result has no duplicates, contains exactly the urls of either
stream, carries exactly one copy of any url present in either
stream (in particular one present in both), and lists elements in
strictly increasing order of their first occurrence. -/
theorem c8_global_dedup_first_seen (s1 s2 : List String) (u : String) :
    (dedupFirstSeen (s1 ++ s2)).Nodup ∧
    (u ∈ dedupFirstSeen (s1 ++ s2) ↔ u ∈ s1 ∨ u ∈ s2) ∧
    ((dedupFirstSeen (s1 ++ s2)).count u = if u ∈ s1 ∨ u ∈ s2 then 1 else 0) ∧
    (dedupFirstSeen (s1 ++ s2)).Pairwise
      (fun a b => firstIdx a (s1 ++ s2) < firstIdx b (s1 ++ s2)) := by
  have hnd := (dedupFrom_nodup (s1 ++ s2) []).1
  have hmem : u ∈ dedupFirstSeen (s1 ++ s2) ↔ u ∈ s1 ∨ u ∈ s2 := by
    rw [dedupFirstSeen, mem_dedupFrom]
    simp
  refine ⟨hnd, hmem, ?_, dedupFrom_firstIdx_sorted (s1 ++ s2) []⟩
  by_cases hu : u ∈ s1 ∨ u ∈ s2
  · rw [if_pos hu]
    exact List.count_eq_one_of_mem hnd (hmem.mpr hu)
  · rw [if_neg hu]
    exact List.count_eq_zero_of_not_mem (fun hc => hu (hmem.mp hc))

/-- Sorted descending by value, with ties left in list order (the
order the stable Python sort guarantees). -/
def SortedValDesc (l : List CardValue) : Prop :=
  l.Pairwise (fun a b => b.value_usd ≤ a.value_usd)

/-- Membership through stable insertion. -/
theorem mem_insertDesc (x b : CardValue) :
    ∀ l : List CardValue, b ∈ insertDesc l x ↔ b = x ∨ b ∈ l := by
  intro l
  induction l with
  | nil => simp [insertDesc]
  | cons y ys ih =>
    by_cases hc : x.value_usd ≤ y.value_usd
    · simp only [insertDesc, hc, if_true, List.mem_cons, ih]
      tauto
    · simp only [insertDesc, hc, if_false, List.mem_cons]

/-- Stable insertion preserves descending sortedness. -/
theorem insertDesc_sorted (x : CardValue) :
    ∀ l : List CardValue, SortedValDesc l → SortedValDesc (insertDesc l x) := by
  intro l
  induction l with
  | nil => intro _; simp [insertDesc, SortedValDesc]
  | cons y ys ih =>
    intro h
    rw [SortedValDesc, List.pairwise_cons] at h
    obtain ⟨h1, h2⟩ := h
    by_cases hc : x.value_usd ≤ y.value_usd
    · rw [SortedValDesc]
      simp only [insertDesc, hc, if_true, List.pairwise_cons]
      refine ⟨fun b hb => ?_, ih h2⟩
      rcases (mem_insertDesc x b ys).mp hb with hb | hb
      · exact hb ▸ hc
      · exact h1 b hb
    · rw [SortedValDesc]
      simp only [insertDesc, hc, if_false, List.pairwise_cons]
      push_neg at hc
      refine ⟨fun b hb => ?_, h1, h2⟩
      rcases List.mem_cons.mp hb with hb | hb
      · exact hb ▸ le_of_lt hc
      · exact le_trans (h1 b hb) (le_of_lt hc)

/-- Inserting an element no greater than everything present appends
it at the end. -/
theorem insertDesc_of_le (x : CardValue) :
    ∀ acc : List CardValue,
      (∀ y ∈ acc, x.value_usd ≤ y.value_usd) → insertDesc acc x = acc ++ [x] := by
  intro acc
  induction acc with
  | nil => intro _; simp [insertDesc]
  | cons y ys ih =>
    intro h
    have hy : x.value_usd ≤ y.value_usd := h y (List.mem_cons_self y ys)
    simp only [insertDesc, hy, if_true, List.cons_append, List.cons.injEq, true_and]
    exact ih (fun b hb => h b (List.mem_cons_of_mem y hb))

/-- Insertion sort leaves an already sorted list unchanged (stated
with the general accumulator the fold needs). -/
theorem foldl_insertDesc_of_sorted :
    ∀ (l acc : List CardValue), SortedValDesc (acc ++ l) →
      l.foldl insertDesc acc = acc ++ l := by
  intro l
  induction l with
  | nil => intro acc _; simp
  | cons x xs ih =>
    intro acc h
    have hxacc : ∀ y ∈ acc, x.value_usd ≤ y.value_usd := by
      rw [SortedValDesc, List.pairwise_append] at h
      exact fun y hy => h.2.2 y hy x (List.mem_cons_self x xs)
    have hins : insertDesc acc x = acc ++ [x] := insertDesc_of_le x acc hxacc
    have hsort : SortedValDesc ((acc ++ [x]) ++ xs) := by
      rw [List.append_assoc, List.singleton_append]
      exact h
    calc (x :: xs).foldl insertDesc acc
        = xs.foldl insertDesc (insertDesc acc x) := rfl
      _ = xs.foldl insertDesc (acc ++ [x]) := by rw [hins]
      _ = (acc ++ [x]) ++ xs := ih (acc ++ [x]) hsort
      _ = acc ++ x :: xs := by rw [List.append_assoc, List.singleton_append]

/-- A sorted list is a fixed point of the modelled sort. -/
theorem sortDesc_of_sorted (l : List CardValue) (h : SortedValDesc l) :
    sortDesc l = l := by
  simpa using foldl_insertDesc_of_sorted l [] (by simpa using h)

/-- The modelled sort always produces a descending list. -/
theorem sortDesc_sorted (l : List CardValue) : SortedValDesc (sortDesc l) := by
  have haux : ∀ (m acc : List CardValue), SortedValDesc acc →
      SortedValDesc (m.foldl insertDesc acc) := by
    intro m
    induction m with
    | nil => intro acc h; exact h
    | cons x xs ih => intro acc h; exact ih (insertDesc acc x) (insertDesc_sorted x acc h)
  exact haux l [] (by simp [SortedValDesc])

/-- The modelled sort permutes its input. -/
theorem sortDesc_perm (l : List CardValue) : List.Perm (sortDesc l) l := by
  have hins : ∀ (acc : List CardValue) (x), List.Perm (insertDesc acc x) (x :: acc) := by
    intro acc
    induction acc with
    | nil => intro x; simp [insertDesc]
    | cons y ys ih =>
      intro x
      by_cases hc : x.value_usd ≤ y.value_usd
      · simp only [insertDesc, hc, if_true]
        exact ((ih x).cons y).trans (List.Perm.swap x y ys)
      · simp [insertDesc, hc]
  have haux : ∀ (m acc : List CardValue),
      List.Perm (m.foldl insertDesc acc) (acc ++ m) := by
    intro m
    induction m with
    | nil => intro acc; simp
    | cons x xs ih =>
      intro acc
      have h1 : List.Perm ((x :: xs).foldl insertDesc acc)
          (insertDesc acc x ++ xs) := ih (insertDesc acc x)
      have h2 : List.Perm (insertDesc acc x ++ xs) ((x :: acc) ++ xs) :=
        (hins acc x).append_right xs
      have h3 : List.Perm ((x :: acc) ++ xs) (acc ++ x :: xs) :=
        List.perm_middle.symm
      exact (h1.trans h2).trans h3
  simpa using haux l []

/-- Truncating at n commutes with inserting into a list already
truncated at n: the dropped tail can never re-enter the front. -/
theorem take_insertDesc (x : CardValue) :
    ∀ (s : List CardValue) (n : Nat),
      (insertDesc (s.take n) x).take n = (insertDesc s x).take n := by
  intro s
  induction s with
  | nil => intro n; simp
  | cons y ys ih =>
    intro n
    cases n with
    | zero => simp
    | succ m =>
      rw [List.take_succ_cons]
      by_cases hc : x.value_usd ≤ y.value_usd
      · simp only [insertDesc, hc, if_true, List.take_succ_cons, List.cons.injEq,
          true_and]
        exact ih m
      · simp only [insertDesc, hc, if_false, List.take_succ_cons, List.cons.injEq,
          true_and]
        cases m with
        | zero => simp
        | succ j =>
          rw [List.take_succ_cons, List.take_succ_cons, List.take_take]
          simp [Nat.min_eq_left (Nat.le_succ j)]

/-- The streaming fold with a truncated sorted accumulator computes
the truncation of the full insertion fold. -/
theorem foldl_top10_eq :
    ∀ (xs s : List CardValue), SortedValDesc s →
      xs.foldl top10Step (s.take 10) = (xs.foldl insertDesc s).take 10 := by
  intro xs
  induction xs with
  | nil => intro s _; rfl
  | cons x xs ih =>
    intro s hs
    have hstep : top10Step (s.take 10) x = (insertDesc s x).take 10 := by
      have h1 : sortDesc (s.take 10 ++ [x]) = insertDesc (sortDesc (s.take 10)) x := by
        rw [sortDesc, List.foldl_append]
        rfl
      have htk : SortedValDesc (s.take 10) := by
        rw [SortedValDesc]
        exact List.Pairwise.sublist (List.take_sublist 10 s) hs
      rw [top10Step, h1, sortDesc_of_sorted (s.take 10) htk, take_insertDesc]
    calc (x :: xs).foldl top10Step (s.take 10)
        = xs.foldl top10Step (top10Step (s.take 10) x) := rfl
      _ = xs.foldl top10Step ((insertDesc s x).take 10) := by rw [hstep]
      _ = (xs.foldl insertDesc (insertDesc s x)).take 10 :=
          ih (insertDesc s x) (insertDesc_sorted x s hs)
      _ = ((x :: xs).foldl insertDesc s).take 10 := rfl

/-- Claim C7: the incrementally maintained top-10 list (append,
re-sort descending, truncate to 10 at every arrival) equals the
first 10 elements of the final stable descending sort of the whole
stream, tie order included. -/
theorem c7_streaming_top10 (xs : List CardValue) :
    top10Stream xs = (sortDesc xs).take 10 := by
  have h := foldl_top10_eq xs [] (by simp [SortedValDesc])
  simpa [top10Stream, sortDesc] using h

/-- The row-acceptance predicate the aggregation sums over: the row
covers the price and population columns, its grade-column text
contains 10 as a whole word, and both parsed numbers are positive. -/
def acceptedRow (ia ip gc : Nat) (r : List Cell) : Bool :=
  let cols := r.map cellText
  if cols.length ≤ max ia ip then false
  else
    let grade_text := if gc < cols.length then cols.getD gc "" else ""
    if !(is_grade_10 grade_text) then false
    else if 0 < money_to_float (cols.getD ia "") ∧ 0 < int_from (cols.getD ip "")
    then true
    else false

/-- A row contributes its price-times-population product exactly
when it is accepted, and zero otherwise. -/
theorem rowContribution_eq_ite (ia ip gc : Nat) (r : List Cell) :
    rowContribution ia ip gc r =
      (if acceptedRow ia ip gc r then
        money_to_float ((r.map cellText).getD ia "") *
          (int_from ((r.map cellText).getD ip "") : ℚ)
       else 0) := by
  simp only [rowContribution, acceptedRow]
  split_ifs with h1 h2 h3 h4 h5 <;> simp_all

/-- Summing an if-guarded map equals mapping over the filtered list. -/
theorem sum_map_ite_eq_filter {α : Type} (p : α → Bool) (g : α → ℚ) :
    ∀ l : List α,
      (l.map (fun r => if p r then g r else 0)).sum = ((l.filter p).map g).sum := by
  intro l
  induction l with
  | nil => simp
  | cons x xs ih =>
    by_cases hx : p x
    · simp [hx, ih]
    · simp [hx, ih]

/-- The accumulated table value is the sum of price-times-population
over exactly the accepted body rows. -/
theorem tableTotal_eq_filter (ia ip gc : Nat) (rows : List (List Cell)) :
    tableTotal ia ip gc rows =
      (((rows.drop 1).filter (acceptedRow ia ip gc)).map
        (fun r => money_to_float ((r.map cellText).getD ia "") *
          (int_from ((r.map cellText).getD ip "") : ℚ))).sum := by
  rw [tableTotal]
  rw [show rowContribution ia ip gc = (fun r =>
      if acceptedRow ia ip gc r then
        money_to_float ((r.map cellText).getD ia "") *
          (int_from ((r.map cellText).getD ip "") : ℚ)
      else 0) from funext (rowContribution_eq_ite ia ip gc)]
  exact sum_map_ite_eq_filter _ _ _

/-- The resolved average-price column of a table. -/
def avgColIdx (t : Table) : Nat :=
  (col_idx (tableHeaders t) "Average Price").toNat

/-- The resolved population column of a table. -/
def popColIdx (t : Table) : Nat :=
  (col_idx (tableHeaders t) "Population").toNat

/-- The grade column actually used for a table. -/
def tableGradeCol (t : Table) : Nat := gradeColOf (tableHeaders t)

/-- Unfolding of parse_card_value once a table is selected and both
required columns resolve. -/
theorem parse_card_value_eq (doc : Doc) (url : String) (target : Table)
    (hfind : doc.tables.find? tableMatchesHeaders = some target)
    (hAvg : 0 ≤ col_idx (tableHeaders target) "Average Price")
    (hPop : 0 ≤ col_idx (tableHeaders target) "Population") :
    parse_card_value doc url =
      (if tableTotal (avgColIdx target) (popColIdx target) (tableGradeCol target)
          target.rows ≤ 0 then none
       else some ⟨resolveName doc url, url,
         tableTotal (avgColIdx target) (popColIdx target) (tableGradeCol target)
           target.rows⟩) := by
  have hneg : ¬ (col_idx (tableHeaders target) "Average Price" < 0 ∨
      col_idx (tableHeaders target) "Population" < 0) := by omega
  simp only [parse_card_value, hfind]
  rw [if_neg hneg]
  rfl

/-- Claim C5: the extractor accumulates price times population over
exactly the accepted body rows (grade-10 whole-word match, both
parsed numbers positive), reports none exactly when the total is not
positive, and in particular reports none when no row is accepted. -/
theorem c5_grade10_row_aggregation (doc : Doc) (url : String) (target : Table)
    (hfind : doc.tables.find? tableMatchesHeaders = some target)
    (hAvg : 0 ≤ col_idx (tableHeaders target) "Average Price")
    (hPop : 0 ≤ col_idx (tableHeaders target) "Population") :
    (parse_card_value doc url = none ↔
      tableTotal (avgColIdx target) (popColIdx target) (tableGradeCol target)
        target.rows ≤ 0) ∧
    (∀ cv, parse_card_value doc url = some cv →
      cv = ⟨resolveName doc url, url,
        tableTotal (avgColIdx target) (popColIdx target) (tableGradeCol target)
          target.rows⟩) ∧
    tableTotal (avgColIdx target) (popColIdx target) (tableGradeCol target)
        target.rows =
      (((target.rows.drop 1).filter
        (acceptedRow (avgColIdx target) (popColIdx target) (tableGradeCol target))).map
        (fun r => money_to_float ((r.map cellText).getD (avgColIdx target) "") *
          (int_from ((r.map cellText).getD (popColIdx target) "") : ℚ))).sum ∧
    ((target.rows.drop 1).filter
        (acceptedRow (avgColIdx target) (popColIdx target) (tableGradeCol target)) = [] →
      parse_card_value doc url = none) := by
  have heq := parse_card_value_eq doc url target hfind hAvg hPop
  refine ⟨?_, ?_, tableTotal_eq_filter _ _ _ _, ?_⟩
  · rw [heq]
    by_cases h : tableTotal (avgColIdx target) (popColIdx target)
        (tableGradeCol target) target.rows ≤ 0
    · simp [h]
    · simp [h]
  · intro cv hcv
    rw [heq] at hcv
    by_cases h : tableTotal (avgColIdx target) (popColIdx target)
        (tableGradeCol target) target.rows ≤ 0
    · rw [if_pos h] at hcv
      exact absurd hcv (by simp)
    · rw [if_neg h] at hcv
      exact (Option.some_inj.mp hcv).symm
  · intro hf
    have h0 : tableTotal (avgColIdx target) (popColIdx target)
        (tableGradeCol target) target.rows = 0 := by
      rw [tableTotal_eq_filter, hf]
      simp
    rw [heq, if_pos (le_of_eq h0)]

/-- Evaluation of money_to_float on a non-sentinel string whose
cleaned form parses as an unsigned decimal. -/
theorem money_to_float_posform (s : String) (i f : List Char)
    (h1 : strTrim s ≠ "") (h2 : strTrim s ≠ "-")
    (h3 : strTrim s ≠ "—") (h4 : strTrim s ≠ "N/A")
    (hform : parseFloatForm ((strTrim s).data.filter
      (fun c => !(c = '$' || c = ','))) = .val false i f) :
    money_to_float s =
      (digitsToNat i : ℚ) + (digitsToNat f : ℚ) / (10 : ℚ) ^ f.length := by
  simp only [money_to_float, parseFloatQ, hform, formToQ]
  rw [if_neg (by simp [h1, h2, h3, h4])]
  norm_num

/-- The spec example price cell parses to 100. -/
theorem money100 : money_to_float "$100.00" = 100 := by
  have hi : digitsToNat ['1', '0', '0'] = 100 := by decide
  have hf : digitsToNat ['0', '0'] = 0 := by decide
  rw [money_to_float_posform "$100.00" ['1', '0', '0'] ['0', '0']
    (by decide) (by decide) (by decide) (by decide) (by decide), hi, hf]
  norm_num

/-- The table of the spec example for the aggregation rule. -/
def c5table : Table := ⟨[[.th "Grade", .th "Average Price", .th "Population"],
  [.td "GEM-MT 10", .td "$100.00", .td "50"]]⟩

/-- The document of the spec example for the aggregation rule. -/
def c5doc : Doc := ⟨some "Card X", none, [c5table]⟩

/-- The example body row contributes exactly 100 times 50. -/
theorem c5row :
    rowContribution 1 2 0 [Cell.td "GEM-MT 10", Cell.td "$100.00", Cell.td "50"] =
      5000 := by
  have hg : is_grade_10 "GEM-MT 10" = true := by decide
  have hi : int_from "50" = 50 := by decide
  simp only [rowContribution, List.map, cellText]
  norm_num [hg, money100, hi]

/-- The example table accumulates exactly 5000. -/
theorem c5total : tableTotal 1 2 0 c5table.rows = 5000 := by
  rw [tableTotal]
  simp [c5table, c5row]

/-- Claim C5 witness: the hypotheses and the extraction result at
the spec example table, including value_usd 5000. -/
theorem c5_grade10_row_aggregation_witness :
    ([c5table].find? tableMatchesHeaders = some c5table) ∧
    (0 : Int) ≤ col_idx (tableHeaders c5table) "Average Price" ∧
    (0 : Int) ≤ col_idx (tableHeaders c5table) "Population" ∧
    (parse_card_value c5doc "u" = none ↔
      tableTotal (avgColIdx c5table) (popColIdx c5table) (tableGradeCol c5table)
        c5table.rows ≤ 0) ∧
    parse_card_value c5doc "u" = some ⟨"Card X", "u", 5000⟩ := by
  have h := c5_grade10_row_aggregation c5doc "u" c5table rfl (by decide) (by decide)
  have htot : tableTotal (avgColIdx c5table) (popColIdx c5table)
      (tableGradeCol c5table) c5table.rows = 5000 := by
    have hA : avgColIdx c5table = 1 := by decide
    have hP : popColIdx c5table = 2 := by decide
    have hG : tableGradeCol c5table = 0 := by decide
    rw [hA, hP, hG, c5total]
  have hname : resolveName c5doc "u" = "Card X" := by decide
  refine ⟨rfl, by decide, by decide, h.1, ?_⟩
  have heq := parse_card_value_eq c5doc "u" c5table rfl (by decide) (by decide)
  rw [heq, htot, if_neg (by norm_num), hname]

/-- Claim C6: the extractor reports none when no table header text
carries both markers, and in particular when none carries the
Population marker regardless of rows; none when the price or
population column of the selected table is unresolved; and an
unresolved grade column defaults to column 0 with extraction
proceeding. -/
theorem c6_table_and_column_misses (doc : Doc) (url : String) :
    ((∀ t ∈ doc.tables, tableMatchesHeaders t = false) →
      parse_card_value doc url = none) ∧
    ((∀ t ∈ doc.tables, strContainsSub (tableHeaderText t) "Population" = false) →
      parse_card_value doc url = none) ∧
    (∀ target, doc.tables.find? tableMatchesHeaders = some target →
      ((col_idx (tableHeaders target) "Average Price" < 0 ∨
        col_idx (tableHeaders target) "Population" < 0) →
          parse_card_value doc url = none) ∧
      (col_idx (tableHeaders target) "Grade" < 0 →
        tableGradeCol target = 0 ∧
        (0 ≤ col_idx (tableHeaders target) "Average Price" →
         0 ≤ col_idx (tableHeaders target) "Population" →
         parse_card_value doc url =
           (if tableTotal (avgColIdx target) (popColIdx target) 0 target.rows ≤ 0
            then none
            else some ⟨resolveName doc url, url,
              tableTotal (avgColIdx target) (popColIdx target) 0 target.rows⟩)))) := by
  have hnone : (∀ t ∈ doc.tables, tableMatchesHeaders t = false) →
      parse_card_value doc url = none := by
    intro hall
    have hfn : doc.tables.find? tableMatchesHeaders = none :=
      List.find?_eq_none.mpr (fun t ht => by simp [hall t ht])
    simp [parse_card_value, hfn]
  refine ⟨hnone, ?_, ?_⟩
  · intro hp
    exact hnone (fun t ht => by simp [tableMatchesHeaders, hp t ht])
  · intro target hfind
    refine ⟨?_, ?_⟩
    · intro hbad
      simp only [parse_card_value, hfind]
      rw [if_pos hbad]
    · intro hg
      have hgc : tableGradeCol target = 0 := by
        have hn : ¬ 0 ≤ col_idx (tableHeaders target) "Grade" := by omega
        simp [tableGradeCol, gradeColOf, hn]
      refine ⟨hgc, fun hA hP => ?_⟩
      have heq := parse_card_value_eq doc url target hfind hA hP
      rw [heq, hgc]

/-- A table whose split headers select it while no single header
resolves either required column. -/
def c6tableSplit : Table := ⟨[[.th "Average", .th "Price Population"],
  [.td "10", .td "5"]]⟩

/-- A selected table with no Grade header. -/
def c6tableNoGrade : Table := ⟨[[.th "Foo", .th "Average Price", .th "Population"],
  [.td "10", .td "$2.00", .td "3"]]⟩

/-- A table with no Population header. -/
def c6tableNoPop : Table := ⟨[[.th "Grade", .th "Average Price"],
  [.td "GEM-MT 10", .td "$100.00"]]⟩

/-- The example price cell of the grade-default table parses to 2. -/
theorem money2 : money_to_float "$2.00" = 2 := by
  have hi : digitsToNat ['2'] = 2 := by decide
  have hf : digitsToNat ['0', '0'] = 0 := by decide
  rw [money_to_float_posform "$2.00" ['2'] ['0', '0']
    (by decide) (by decide) (by decide) (by decide) (by decide), hi, hf]
  norm_num

/-- The grade-default example table accumulates exactly 6. -/
theorem c6totalNoGrade : tableTotal 1 2 0 c6tableNoGrade.rows = 6 := by
  have hg : is_grade_10 "10" = true := by decide
  have hi : int_from "3" = 3 := by decide
  have hrow : rowContribution 1 2 0 [Cell.td "10", Cell.td "$2.00", Cell.td "3"] = 6 := by
    simp only [rowContribution, List.map, cellText]
    norm_num [hg, money2, hi]
  rw [tableTotal]
  simp [c6tableNoGrade, hrow]

/-- Claim C6 witness: the four miss and default behaviours at
concrete tables. -/
theorem c6_table_and_column_misses_witness :
    parse_card_value ⟨some "A", none, [c6tableNoPop]⟩ "u" = none ∧
    parse_card_value ⟨some "A", none, [c6tableSplit]⟩ "u" = none ∧
    tableGradeCol c6tableNoGrade = 0 ∧
    parse_card_value ⟨some "A", none, [c6tableNoGrade]⟩ "u" = some ⟨"A", "u", 6⟩ := by
  refine ⟨?_, ?_, ?_, ?_⟩
  · exact (c6_table_and_column_misses ⟨some "A", none, [c6tableNoPop]⟩ "u").2.1
      (by intro t ht; simp only [List.mem_singleton] at ht; subst ht; decide)
  · exact ((c6_table_and_column_misses ⟨some "A", none, [c6tableSplit]⟩ "u").2.2
      c6tableSplit rfl).1 (by decide)
  · exact (((c6_table_and_column_misses ⟨some "A", none, [c6tableNoGrade]⟩ "u").2.2
      c6tableNoGrade rfl).2 (by decide)).1
  · have h := (((c6_table_and_column_misses ⟨some "A", none, [c6tableNoGrade]⟩ "u").2.2
      c6tableNoGrade rfl).2 (by decide)).2 (by decide) (by decide)
    have hA : avgColIdx c6tableNoGrade = 1 := by decide
    have hP : popColIdx c6tableNoGrade = 2 := by decide
    have hname : resolveName ⟨some "A", none, [c6tableNoGrade]⟩ "u" = "A" := by decide
    rw [h, hA, hP, c6totalNoGrade, if_neg (by norm_num), hname]

/-- Claim C9 counterexample: with no h1 and no title the name falls
back to the url, but the url is run through the same trailing
suffix strip, so a url carrying the suffix pattern is not returned
verbatim. -/
theorem c9_name_resolution_counterexample :
    resolveName ⟨none, none, []⟩ "x|PSAy" = "x" ∧ "x" ≠ "x|PSAy" :=
  ⟨by decide, by decide⟩

/-- Claim C9 as amended: name resolution is total and prefers the
first non-empty h1 text; otherwise it takes the title text, or the
url when no title exists, and applies the trailing-suffix strip plus
trim to that fallback; hence the url is returned verbatim exactly
when it needs no trimming and carries no suffix match. -/
theorem c9_name_resolution_rules (doc : Doc) (url : String) :
    (∀ h, doc.h1 = some h → h ≠ "" → resolveName doc url = h) ∧
    ((doc.h1 = none ∨ doc.h1 = some "") →
      (∀ t, doc.title = some t → resolveName doc url = stripPsaSuffix t) ∧
      (doc.title = none → resolveName doc url = stripPsaSuffix url) ∧
      (doc.title = none → psaMatchIndex url.data = none → strTrim url = url →
        resolveName doc url = url)) := by
  refine ⟨?_, fun hh => ⟨?_, ?_, ?_⟩⟩
  · intro h h1 hne
    simp [resolveName, h1, hne]
  · intro t ht
    rcases hh with hh | hh <;> simp [resolveName, hh, fallbackName, ht]
  · intro ht
    rcases hh with hh | hh <;> simp [resolveName, hh, fallbackName, ht]
  · intro ht hpm htr
    have hstrip : stripPsaSuffix url = url := by
      rw [stripPsaSuffix, hpm]
      exact htr
    rcases hh with hh | hh <;> simp [resolveName, hh, fallbackName, ht, hstrip]

/-- Claim C9 witness: the three resolution paths at concrete
documents, with the suffix strip evaluated. -/
theorem c9_name_resolution_rules_witness :
    resolveName ⟨some "Charizard", none, []⟩ "u" = "Charizard" ∧
    resolveName ⟨none, some "Base Set | PSA CardFacts", []⟩ "u" =
      stripPsaSuffix "Base Set | PSA CardFacts" ∧
    stripPsaSuffix "Base Set | PSA CardFacts" = "Base Set" ∧
    resolveName ⟨some "", none, []⟩ "http://e.x/a" = "http://e.x/a" := by
  refine ⟨?_, ?_, by decide, ?_⟩
  · exact (c9_name_resolution_rules ⟨some "Charizard", none, []⟩ "u").1
      "Charizard" rfl (by decide)
  · exact ((c9_name_resolution_rules ⟨none, some "Base Set | PSA CardFacts", []⟩ "u").2
      (Or.inl rfl)).1 "Base Set | PSA CardFacts" rfl
  · exact ((c9_name_resolution_rules ⟨some "", none, []⟩ "http://e.x/a").2
      (Or.inr rfl)).2.2 rfl (by decide) (by decide)

/-- Claim C7 witness: the streaming equivalence instantiated at a
concrete three-record stream. -/
theorem c7_streaming_top10_witness :
    top10Stream [⟨"a", "u", 5⟩, ⟨"b", "u", 5⟩, ⟨"c", "u", 9⟩] =
      (sortDesc [⟨"a", "u", 5⟩, ⟨"b", "u", 5⟩, ⟨"c", "u", 9⟩]).take 10 :=
  c7_streaming_top10 [⟨"a", "u", 5⟩, ⟨"b", "u", 5⟩, ⟨"c", "u", 9⟩]

/-- Claim C8 witness: the dedup properties instantiated at two
concrete set streams sharing a url. -/
theorem c8_global_dedup_first_seen_witness :
    (dedupFirstSeen (["a", "b"] ++ ["a", "c"])).Nodup ∧
    ("a" ∈ dedupFirstSeen (["a", "b"] ++ ["a", "c"]) ↔
      "a" ∈ ["a", "b"] ∨ "a" ∈ ["a", "c"]) ∧
    ((dedupFirstSeen (["a", "b"] ++ ["a", "c"])).count "a" =
      if "a" ∈ ["a", "b"] ∨ "a" ∈ ["a", "c"] then 1 else 0) ∧
    (dedupFirstSeen (["a", "b"] ++ ["a", "c"])).Pairwise
      (fun a b => firstIdx a (["a", "b"] ++ ["a", "c"]) <
        firstIdx b (["a", "b"] ++ ["a", "c"])) :=
  c8_global_dedup_first_seen ["a", "b"] ["a", "c"] "a"

/-- Claim C10 witness: the two index computations agree at a
concrete record list. -/
theorem c10_compute_index_matches_main_witness :
    compute_index [probeCard] = mainIndex [probeCard] :=
  c10_compute_index_matches_main [probeCard]
